import Mathlib

/-!
Verification of the realtime speech-generation demo application.

This file gives a shallow embedding of the repository's core logic:

* the WAV serialization performed by `save_to_wav_file` (app.py, script.py,
  streamlit.py) — file I/O becomes a pure function from the audio byte
  buffer to the byte content of the written file;
* the audio-file creation and display policy (`create_audio_file`,
  `display_audio_response` in app.py / streamlit.py);
* the streaming message loop shared by `process_llm_response` (app.py,
  streamlit.py) and `text_in_audio_out` (script.py) — the async receive
  loop becomes a fold over a finite list of incoming messages, where an
  exhausted list models the transport raising inside `client.recv()`;
* the model discovery logic of models_config.py (`_discover_models`,
  `get_env_variable_keys`) — `os.environ` becomes an explicit association
  list snapshot.

Theorems about these definitions appear after all definitions.
-/

namespace OaiRealtime

/-- A byte, modelled as a natural number; Python `bytes` / `bytearray`
elements are in `0..255`. -/
abbrev Byte := Nat

/-- Little-endian encoding of a 16-bit field, as Python's `wave` module
writes header fields with `struct.pack('<H', ...)`. -/
def u16le (n : Nat) : List Byte := [n % 256, n / 256 % 256]

/-- Little-endian encoding of a 32-bit field, as Python's `wave` module
writes header fields with `struct.pack('<L', ...)`. -/
def u32le (n : Nat) : List Byte :=
  [n % 256, n / 256 % 256, n / 65536 % 256, n / 16777216 % 256]

/-- Decode a two-byte little-endian field. -/
def decodeU16 : List Byte → Nat
  | [a, b] => a + 256 * b
  | _ => 0

/-- Decode a four-byte little-endian field. -/
def decodeU32 : List Byte → Nat
  | [a, b, c, d] => a + 256 * b + 65536 * c + 16777216 * d
  | _ => 0

/-- Read a 16-bit little-endian field at a byte offset. -/
def readU16 (l : List Byte) (off : Nat) : Nat := decodeU16 ((l.drop off).take 2)

/-- Read a 32-bit little-endian field at a byte offset. -/
def readU32 (l : List Byte) (off : Nat) : Nat := decodeU32 ((l.drop off).take 4)

/-- Byte content of the file written by `save_to_wav_file` (app.py lines
44-56, script.py lines 21-38, streamlit.py lines 43-55): Python's `wave`
module emits a RIFF/WAVE header for 1 channel, sample width 2 (16 bits),
frame rate 24000, followed by the data passed to `writeframes` verbatim.
The magic numbers are the ASCII codes of "RIFF", "WAVE", "fmt " and
"data"; byte rate is 24000*1*2 = 48000 and block align is 1*2 = 2, as the
wave module derives them. -/
def save_to_wav_file (audio_data : List Byte) : List Byte :=
  [82, 73, 70, 70] ++ u32le (36 + audio_data.length) ++ [87, 65, 86, 69] ++
  [102, 109, 116, 32] ++ u32le 16 ++ u16le 1 ++ u16le 1 ++
  u32le 24000 ++ u32le 48000 ++ u16le 2 ++ u16le 16 ++
  [100, 97, 116, 97] ++ u32le audio_data.length ++ audio_data

/-- Result of parsing a WAV file: the `fmt ` chunk fields a reader reports
and the extracted data chunk. -/
structure WavInfo where
  channels : Nat
  sampleRate : Nat
  bitsPerSample : Nat
  data : List Byte
deriving DecidableEq

/-- Modelled from the spec: a standard WAV reader ("parsing the result
with a standard WAV reader", spec §8 property 5).  It checks the RIFF and
WAVE magics, a 16-byte PCM `fmt ` chunk, the `data` chunk marker, and
extracts the declared number of data bytes.  Returns `none` on any
malformed header. -/
def parseWav (b : List Byte) : Option WavInfo :=
  if b.take 4 = [82, 73, 70, 70] ∧
     (b.drop 8).take 4 = [87, 65, 86, 69] ∧
     (b.drop 12).take 4 = [102, 109, 116, 32] ∧
     readU32 b 16 = 16 ∧
     readU16 b 20 = 1 ∧
     (b.drop 36).take 4 = [100, 97, 116, 97] ∧
     44 + readU32 b 40 ≤ b.length then
    some ⟨readU16 b 22, readU32 b 24, readU16 b 34, (b.drop 44).take (readU32 b 40)⟩
  else
    none

/-- `create_audio_file` (app.py lines 89-97, streamlit.py lines 88-96):
returns `none` when the accumulated buffer is empty (Python: `if not
audio_buffer: return None`), otherwise the content of the WAV file written
by `save_to_wav_file`.  The `none` outcome is the code's realization of
the spec's `EmptyAudioError`. -/
def create_audio_file (audio_buffer : List Byte) : Option (List Byte) :=
  if audio_buffer = [] then none else some (save_to_wav_file audio_buffer)

/-- UI actions issued by `display_audio_response` (app.py / streamlit.py). -/
inductive UIAction where
  | subheader (title : String)
  | audioPlayer
  | downloadButton
deriving DecidableEq

/-- `display_audio_response` (app.py lines 128-150, streamlit.py): returns
early with no UI output when no audio file was produced (`if not
audio_file: return`); otherwise shows the subheader, the audio player and
the download button. -/
def display_audio_response : Option (List Byte) → List UIAction
  | none => []
  | some _ => [.subheader "Audio Response", .audioPlayer, .downloadButton]

/-- Value of a base64 alphabet character, `none` for characters outside
the alphabet (models the translation table of Python's `base64.b64decode`). -/
def b64val (c : Char) : Option Nat :=
  if 65 ≤ c.toNat ∧ c.toNat ≤ 90 then some (c.toNat - 65)
  else if 97 ≤ c.toNat ∧ c.toNat ≤ 122 then some (c.toNat - 71)
  else if 48 ≤ c.toNat ∧ c.toNat ≤ 57 then some (c.toNat + 4)
  else if c = '+' then some 62
  else if c = '/' then some 63
  else none

/-- Keep base64 alphabet characters and padding; `base64.b64decode`
(without `validate=True`) discards all other characters before decoding. -/
def b64keep (c : Char) : Bool := (b64val c).isSome || c = '='

/-- Decode base64 quadruples into bytes, honouring `=` padding in the
final group. -/
def b64groups : List Char → List Byte
  | c1 :: c2 :: c3 :: c4 :: rest =>
    let v1 := (b64val c1).getD 0
    let v2 := (b64val c2).getD 0
    let b1 := v1 * 4 + v2 / 16
    if c3 = '=' then [b1]
    else
      let v3 := (b64val c3).getD 0
      let b2 := v2 % 16 * 16 + v3 / 4
      if c4 = '=' then [b1, b2]
      else b1 :: b2 :: (v3 % 4 * 64 + (b64val c4).getD 0) :: b64groups rest
  | _ => []

/-- `base64.b64decode` as called on `message.delta` in the
`response.audio.delta` branch: decode the base64 text to raw PCM bytes
(model of the Python standard library function for well-formed input). -/
def b64decode (s : String) : List Byte := b64groups (s.data.filter b64keep)

/-- The tagged protocol messages interpreted by the receive loop.  The
`match message.type` in the source dispatches on the tag strings
"response.done", "error", "response.audio_transcript.delta",
"response.audio.delta", with a wildcard for everything else. -/
inductive RTMessage where
  | responseDone
  | error (payload : String)
  | audioTranscriptDelta (delta : String)
  | audioDelta (delta : String)
  | other (tag : String)
deriving DecidableEq

/-- The accumulator state of the receive loop: `transcript` and
`audio_buffer` as in the source, the loop's `done` flag, and the error
payload passed to `st.error` (or printed) when an "error" message is
seen — `none` while no protocol error was reported. -/
structure AssemblyState where
  transcript : String
  audioBuffer : List Byte
  done : Bool
  failure : Option String
deriving DecidableEq

/-- State before the loop: empty transcript, empty buffer, `done = False`. -/
def initialState : AssemblyState := ⟨"", [], false, none⟩

/-- One iteration body of the receive loop (the `match message.type` in
`process_llm_response`, app.py lines 66-82 / streamlit.py lines 65-81, and
`text_in_audio_out`, script.py lines 64-79).  Returns the updated state
and the list of chunks written to the playback sink during this step
(the `play_audio_chunk` call in the audio branch). -/
def stepMessage (message : RTMessage) (s : AssemblyState) :
    AssemblyState × List (List Byte) :=
  match message with
  | .responseDone => ({ s with done := true }, [])
  | .error payload => ({ s with done := true, failure := some payload }, [])
  | .audioTranscriptDelta d => ({ s with transcript := s.transcript ++ d }, [])
  | .audioDelta d =>
      let buffer := b64decode d
      ({ s with audioBuffer := s.audioBuffer ++ buffer }, [buffer])
  | .other _ => (s, [])

/-- The receive loop `while not done: message = await client.recv(); ...`
over a finite list of pending incoming messages.  Returns the final state,
the concatenated sink writes, and the messages never received (those after
the terminal one).  An exhausted message list with `done` still false
models `client.recv()` raising a transport error. -/
def processMessages (msgs : List RTMessage) (s : AssemblyState) :
    AssemblyState × List (List Byte) × List RTMessage :=
  if s.done then (s, [], msgs)
  else
    match msgs with
    | [] => (s, [], [])
    | message :: rest =>
        let p := stepMessage message s
        let q := processMessages rest p.1
        (q.1, p.2 ++ q.2.1, q.2.2)

/-- The three terminal outcomes of a run, per the spec's state machine:
`completed` (`ResponseDone` observed), `protocolError` (an `Error` message
with its payload), `transportError` (the session failed before a terminal
tag). -/
inductive Outcome where
  | completed
  | protocolError (payload : String)
  | transportError
deriving DecidableEq

/-- Classify the final loop state into the terminal outcome. -/
def outcomeOf (s : AssemblyState) : Outcome :=
  if s.done then
    match s.failure with
    | some p => .protocolError p
    | none => .completed
  else .transportError

/-- Events on the playback sink: `setup_audio_stream` starts it before the
loop, `play_audio_chunk` writes to it, and the `finally` block stops and
closes it. -/
inductive SinkEvent where
  | start
  | write (chunk : List Byte)
  | stop
  | close
deriving DecidableEq

/-- Full result of one run of `process_llm_response` (app.py lines 58-87,
streamlit.py lines 57-86): the returned transcript and audio buffer, the
derived terminal outcome, the ordered trace of playback-sink events, and
the incoming messages never received. -/
structure RunResult where
  transcript : String
  audioBuffer : List Byte
  outcome : Outcome
  sinkTrace : List SinkEvent
  remaining : List RTMessage
deriving DecidableEq

/-- `process_llm_response` over a finite incoming message list.  The sink
is started before the `try` block, written to inside the audio branch, and
the `finally` block runs `audio_stream.stop(); audio_stream.close()` on
every exit path (normal, protocol error or transport failure), which the
embedding renders by appending `stop, close` unconditionally after the
loop's writes. -/
def process_llm_response (msgs : List RTMessage) : RunResult :=
  let r := processMessages msgs initialState
  { transcript := r.1.transcript
    audioBuffer := r.1.audioBuffer
    outcome := outcomeOf r.1
    sinkTrace := .start :: (r.2.1.map SinkEvent.write ++ [.stop, .close])
    remaining := r.2.2 }

/-- Messages handled by one of the two delta branches. -/
def isDelta : RTMessage → Bool
  | .audioTranscriptDelta _ => true
  | .audioDelta _ => true
  | _ => false

/-- Messages that terminate the loop. -/
def isTerminal : RTMessage → Bool
  | .responseDone => true
  | .error _ => true
  | _ => false

/-- Text carried by a transcript delta. -/
def transcriptOf : RTMessage → Option String
  | .audioTranscriptDelta d => some d
  | _ => none

/-- Base64 payload carried by an audio delta. -/
def audioOf : RTMessage → Option String
  | .audioDelta d => some d
  | _ => none

/-- Concatenation of a list of strings in order. -/
def concatStr (l : List String) : String := l.foldr (· ++ ·) ""

/-- Concatenation of a list of byte lists in order. -/
def concatBytes (l : List (List Byte)) : List Byte := l.foldr (· ++ ·) []

/-- An environment snapshot: `os.environ` as an ordered association list
(Python dict keys are unique and iterate in insertion order). -/
abbrev Env := List (String × String)

/-- The keys of the environment, in iteration order. -/
def envKeys (env : Env) : List String := env.map Prod.fst

/-- Key membership test, `var in os.environ`. -/
def envContains (env : Env) (k : String) : Bool := (envKeys env).contains k

/-- Dictionary lookup, `os.environ.get(k)` / `os.environ[k]`. -/
def envGet (env : Env) (k : String) : Option String :=
  (env.find? (fun p => p.1 == k)).map Prod.snd

/-- The characters of the pattern `'DEPLOYMENT_NAME_'` used by
`_discover_models`. -/
def depPattern : List Char := "DEPLOYMENT_NAME_".data

/-- `v.startswith('DEPLOYMENT_NAME_')` from models_config.py line 18. -/
def startsWithDep (v : String) : Bool := depPattern.isPrefixOf v.data

/-- Fueled worker for `str.replace('DEPLOYMENT_NAME_', '')`: remove every
leftmost non-overlapping occurrence of the pattern, scanning left to
right.  The fuel is at least the input length, so it never runs out. -/
def stripDepAux : Nat → List Char → List Char
  | 0, s => s
  | _ + 1, [] => []
  | fuel + 1, c :: cs =>
      if depPattern.isPrefixOf (c :: cs) then stripDepAux fuel ((c :: cs).drop 16)
      else c :: stripDepAux fuel cs

/-- `var.replace('DEPLOYMENT_NAME_', '')` from models_config.py line 22:
Python `str.replace` removes ALL occurrences of the pattern, not only a
leading one. -/
def suffixOfVar (v : String) : String := ⟨stripDepAux v.data.length v.data⟩

/-- `suffix.lower()` from models_config.py line 23 (ASCII lowering; the
environment keys involved are ASCII). -/
def lowerStr (s : String) : String := ⟨s.data.map Char.toLower⟩

/-- One discovered model: the dict `{"name": display_name, "suffix":
suffix}` stored in `models[model_id]`. -/
structure ModelInfo where
  name : String
  suffix : String
deriving DecidableEq

/-- The `required_vars_exist` check of models_config.py lines 26-29:
all five of `ENDPOINT_{suffix}`, `API_KEY_{suffix}`, `API_VERSION_{suffix}`,
`DEPLOYMENT_NAME_{suffix}`, `API_TYPE_{suffix}` are present. -/
def requiredVarsExist (env : Env) (suffix : String) : Bool :=
  ["ENDPOINT_", "API_KEY_", "API_VERSION_", "DEPLOYMENT_NAME_", "API_TYPE_"].all
    (fun k => envContains env (k ++ suffix))

/-- Processing of one deployment variable by `_discover_models` (lines
21-38): compute the suffix and model id, check the required keys, and if
present build the stored record with
`display_name = os.environ.get(f"MODEL_{suffix}", os.environ[var])`
(note the default reads the ORIGINAL key `var`, not
`DEPLOYMENT_NAME_{suffix}`). -/
def mkEntry (env : Env) (var : String) : Option (String × ModelInfo) :=
  let suffix := suffixOfVar var
  if requiredVarsExist env suffix then
    some (lowerStr suffix,
      { name := (envGet env ("MODEL_" ++ suffix)).getD ((envGet env var).getD "")
        suffix := suffix })
  else none

/-- Python dict assignment `models[model_id] = {...}`: overwrite the value
in place if the key exists, otherwise append at the end. -/
def dictInsert (models : List (String × ModelInfo)) (id : String) (m : ModelInfo) :
    List (String × ModelInfo) :=
  if models.any (fun p => p.1 == id) then
    models.map (fun p => if p.1 == id then (id, m) else p)
  else models ++ [(id, m)]

/-- The deployment variables: `[v for v in os.environ if
v.startswith('DEPLOYMENT_NAME_')]` (models_config.py line 18). -/
def deploymentVars (env : Env) : List String := (envKeys env).filter startsWithDep

/-- One iteration of the `for var in deployment_vars` loop. -/
def discoverStep (env : Env) (models : List (String × ModelInfo)) (var : String) :
    List (String × ModelInfo) :=
  match mkEntry env var with
  | some (id, m) => dictInsert models id m
  | none => models

/-- `_discover_models` (models_config.py lines 11-41) over an explicit
environment snapshot: fold the deployment variables into the models dict,
starting empty. -/
def _discover_models (env : Env) : List (String × ModelInfo) :=
  (deploymentVars env).foldl (discoverStep env) []

/-- The five external key names derived from a stored suffix, as built by
`get_env_variable_keys` (models_config.py lines 57-68). -/
def envVariableKeyList (suffix : String) : List String :=
  ["ENDPOINT_" ++ suffix, "API_KEY_" ++ suffix, "API_VERSION_" ++ suffix,
   "DEPLOYMENT_NAME_" ++ suffix, "API_TYPE_" ++ suffix]

/-- `get_env_variable_keys(model_id)` (models_config.py lines 57-68):
resolve the model in the registry (the `ValueError` of `get_model_info`
becomes `none`) and derive the five key names from its stored suffix. -/
def get_env_variable_keys (models : List (String × ModelInfo)) (model_id : String) :
    Option (List String) :=
  (models.find? (fun p => p.1 == model_id)).map
    (fun p => envVariableKeyList p.2.suffix)

/-- The delta sequence of the spec's streaming-order example: "Hel", audio
chunk `[0, 1]` (base64 "AAE="), "lo", audio chunk `[2, 3]` (base64
"AgM="). -/
def dsC1 : List RTMessage :=
  [.audioTranscriptDelta "Hel", .audioDelta "AAE=",
   .audioTranscriptDelta "lo", .audioDelta "AgM="]

/-- The prefix of the spec's error-short-circuit example. -/
def preC2 : List RTMessage := [.audioTranscriptDelta "x"]

/-- Environment used to refute claim C3 as universally stated: the five
required keys for the suffix `A_DEPLOYMENT_NAME_B` are all present, yet
the code's replace-all mangles the suffix to `A_B`, whose keys are absent. -/
def envC3 : Env :=
  [("ENDPOINT_A_DEPLOYMENT_NAME_B", "e"), ("API_KEY_A_DEPLOYMENT_NAME_B", "k"),
   ("API_VERSION_A_DEPLOYMENT_NAME_B", "v"),
   ("DEPLOYMENT_NAME_A_DEPLOYMENT_NAME_B", "d"),
   ("API_TYPE_A_DEPLOYMENT_NAME_B", "t")]

/-- Environment used to refute claim C6 as universally stated: the
deployment variable `DEPLOYMENT_NAME_DEPLOYMENT_NAME_B` also computes
suffix `B` and overwrites the entry for id `b` with its own value `dep2`,
while `DEPLOYMENT_NAME_B` holds `dep1` and `MODEL_B` is absent. -/
def envC6 : Env :=
  [("ENDPOINT_B", "e"), ("API_KEY_B", "k"), ("API_VERSION_B", "v"),
   ("API_TYPE_B", "t"), ("DEPLOYMENT_NAME_B", "dep1"),
   ("DEPLOYMENT_NAME_DEPLOYMENT_NAME_B", "dep2")]

/-- Environment with two complete suffix groups `FOO` and `foo` differing
only in case, used for claim C9. -/
def envC9 : Env :=
  [("ENDPOINT_FOO", "e1"), ("API_KEY_FOO", "k1"), ("API_VERSION_FOO", "v1"),
   ("API_TYPE_FOO", "t1"), ("DEPLOYMENT_NAME_FOO", "depA"),
   ("ENDPOINT_foo", "e2"), ("API_KEY_foo", "k2"), ("API_VERSION_foo", "v2"),
   ("API_TYPE_foo", "t2"), ("DEPLOYMENT_NAME_foo", "depB")]

/-! ## Theorems -/

theorem concatStr_nil : concatStr [] = "" := rfl

theorem concatStr_cons (a : String) (l : List String) :
    concatStr (a :: l) = a ++ concatStr l := rfl

theorem concatBytes_nil : concatBytes [] = [] := rfl

theorem concatBytes_cons (a : List Byte) (l : List (List Byte)) :
    concatBytes (a :: l) = a ++ concatBytes l := rfl

set_option maxHeartbeats 2000000 in
/-- C4: save_to_wav_file is a pure, deterministic serialization: parsing
its output with a standard WAV reader recovers exactly the input bytes as
the data chunk, with header fields channels = 1, sampleRate = 24000,
bitsPerSample = 16, and calling it twice on the same input yields
byte-identical output.  The length bound is forced by the 32-bit size
fields of the WAV container itself. -/
theorem c4_wav_roundtrip (b : List Byte) (hne : b ≠ []) (hbytes : ∀ x ∈ b, x < 256)
    (hlen : b.length + 36 < 4294967296) :
    parseWav (save_to_wav_file b) = some ⟨1, 24000, 16, b⟩ ∧
    save_to_wav_file b = save_to_wav_file b := by
  refine ⟨?_, rfl⟩
  have h40 : readU32 (save_to_wav_file b) 40 = b.length := by
    have h : readU32 (save_to_wav_file b) 40 =
        b.length % 256 + 256 * (b.length / 256 % 256) +
        65536 * (b.length / 65536 % 256) +
        16777216 * (b.length / 16777216 % 256) := rfl
    rw [h]; omega
  have hlength : (save_to_wav_file b).length = 44 + b.length := by
    simp [save_to_wav_file, u16le, u32le]
    omega
  have hdrop44 : (save_to_wav_file b).drop 44 = b := rfl
  have t1 : (save_to_wav_file b).take 4 = [82, 73, 70, 70] := rfl
  have t2 : ((save_to_wav_file b).drop 8).take 4 = [87, 65, 86, 69] := rfl
  have t3 : ((save_to_wav_file b).drop 12).take 4 = [102, 109, 116, 32] := rfl
  have t4 : readU32 (save_to_wav_file b) 16 = 16 := rfl
  have t5 : readU16 (save_to_wav_file b) 20 = 1 := rfl
  have t6 : ((save_to_wav_file b).drop 36).take 4 = [100, 97, 116, 97] := rfl
  have t7 : 44 + readU32 (save_to_wav_file b) 40 ≤ (save_to_wav_file b).length := by
    rw [h40, hlength]
  have t8 : readU16 (save_to_wav_file b) 22 = 1 := rfl
  have t9 : readU32 (save_to_wav_file b) 24 = 24000 := rfl
  have t10 : readU16 (save_to_wav_file b) 34 = 16 := rfl
  rw [parseWav, if_pos ⟨t1, t2, t3, t4, t5, t6, t7⟩, t8, t9, t10, h40, hdrop44,
    List.take_length]

/-- C5: the accumulated-audio serialization entry point used by callers
(`create_audio_file`) yields no file exactly when the buffer is empty (the
`EmptyAudioError` policy), succeeds on every non-empty buffer, and the
caller's display path issues no download affordance in the empty case. -/
theorem c5_empty_audio_policy :
    create_audio_file [] = none ∧
    display_audio_response (create_audio_file []) = [] ∧
    ∀ b : List Byte, b ≠ [] → create_audio_file b = some (save_to_wav_file b) := by
  refine ⟨rfl, rfl, ?_⟩
  intro b hb
  simp [create_audio_file, hb]

/-- Witness for C5 at the singleton buffer `[7]`. -/
theorem c5_witness : create_audio_file [7] = some (save_to_wav_file [7]) :=
  c5_empty_audio_policy.2.2 [7] (by decide)

/-- Witness for C4 at the two-byte buffer `[0, 1]`. -/
theorem c4_witness :
    parseWav (save_to_wav_file [0, 1]) = some ⟨1, 24000, 16, [0, 1]⟩ ∧
    save_to_wav_file [0, 1] = save_to_wav_file [0, 1] :=
  c4_wav_roundtrip [0, 1] (by decide) (by decide) (by decide)

theorem processMessages_done (msgs : List RTMessage) (s : AssemblyState)
    (hs : s.done = true) : processMessages msgs s = (s, [], msgs) := by
  cases msgs <;> simp [processMessages, hs]

theorem processMessages_not_done_cons (m : RTMessage) (rest : List RTMessage)
    (s : AssemblyState) (hs : s.done = false) :
    processMessages (m :: rest) s =
      ((processMessages rest (stepMessage m s).1).1,
       (stepMessage m s).2 ++ (processMessages rest (stepMessage m s).1).2.1,
       (processMessages rest (stepMessage m s).1).2.2) := by
  simp [processMessages, hs]

theorem stepMessage_nonterminal (m : RTMessage) (s : AssemblyState)
    (hm : isTerminal m = false) :
    (stepMessage m s).1.done = s.done ∧ (stepMessage m s).1.failure = s.failure := by
  cases m <;> simp_all [stepMessage, isTerminal]

theorem stepMessage_terminal_done (m : RTMessage) (s : AssemblyState)
    (hm : isTerminal m = true) : (stepMessage m s).1.done = true := by
  cases m <;> simp_all [stepMessage, isTerminal]

/-- Running the loop over delta messages followed by `ResponseDone`
accumulates the transcripts and the decoded audio chunks in arrival order,
leaves the failure field untouched, writes each decoded chunk to the sink,
and consumes the whole sequence. -/
theorem processMessages_deltas (ds : List RTMessage) (s : AssemblyState)
    (hd : ∀ m ∈ ds, isDelta m = true) (hs : s.done = false) :
    processMessages (ds ++ [RTMessage.responseDone]) s =
      ({ s with transcript := s.transcript ++ concatStr (ds.filterMap transcriptOf),
                audioBuffer :=
                  s.audioBuffer ++ concatBytes ((ds.filterMap audioOf).map b64decode),
                done := true },
       (ds.filterMap audioOf).map b64decode, []) := by
  induction ds generalizing s with
  | nil =>
      rw [List.nil_append, processMessages_not_done_cons _ _ _ hs]
      have hdone : (stepMessage RTMessage.responseDone s).1.done = true := rfl
      rw [processMessages_done _ _ hdone]
      simp [stepMessage, concatStr, concatBytes]
  | cons m ds ih =>
      have hm := hd m (List.mem_cons_self m ds)
      have hds : ∀ x ∈ ds, isDelta x = true := fun x hx => hd x (List.mem_cons_of_mem _ hx)
      cases m with
      | audioTranscriptDelta d =>
          rw [List.cons_append, processMessages_not_done_cons _ _ _ hs]
          simp only [stepMessage]
          rw [ih { s with transcript := s.transcript ++ d } hds hs]
          simp [transcriptOf, audioOf, concatStr_cons, String.append_assoc]
      | audioDelta d =>
          rw [List.cons_append, processMessages_not_done_cons _ _ _ hs]
          simp only [stepMessage]
          rw [ih { s with audioBuffer := s.audioBuffer ++ b64decode d } hds hs]
          simp [transcriptOf, audioOf, concatBytes_cons, List.append_assoc]
      | responseDone => simp [isDelta] at hm
      | error p => simp [isDelta] at hm
      | other t => simp [isDelta] at hm

/-- C1: for every interleaving of transcript and audio deltas followed by
`ResponseDone`, the run returns the transcript fragments concatenated in
arrival order, the base64-decoded audio payloads concatenated in arrival
order, and terminates in the Completed state (consuming the entire
sequence, each decoded chunk played in order). -/
theorem c1_streaming_order (ds : List RTMessage) (hd : ∀ m ∈ ds, isDelta m = true) :
    process_llm_response (ds ++ [RTMessage.responseDone]) =
      { transcript := concatStr (ds.filterMap transcriptOf)
        audioBuffer := concatBytes ((ds.filterMap audioOf).map b64decode)
        outcome := Outcome.completed
        sinkTrace := SinkEvent.start ::
          (((ds.filterMap audioOf).map b64decode).map SinkEvent.write ++
            [SinkEvent.stop, SinkEvent.close])
        remaining := [] } := by
  rw [process_llm_response]
  rw [processMessages_deltas ds initialState hd rfl]
  simp [outcomeOf, initialState]

/-- Witness for C1 on the spec's example sequence: transcript "Hello",
audio `[0, 1] ++ [2, 3]`, Completed. -/
theorem c1_witness :
    (∀ m ∈ dsC1, isDelta m = true) ∧
    (process_llm_response (dsC1 ++ [RTMessage.responseDone])).transcript = "Hello" ∧
    (process_llm_response (dsC1 ++ [RTMessage.responseDone])).audioBuffer = [0, 1, 2, 3] ∧
    (process_llm_response (dsC1 ++ [RTMessage.responseDone])).outcome =
      Outcome.completed := by
  have h := c1_streaming_order dsC1 (by decide)
  refine ⟨by decide, ?_, ?_, ?_⟩ <;> rw [h] <;> decide

/-- Processing a run whose first terminal message is `mt` consumes exactly
the messages up to and including `mt` (everything after it is never
received), and the final state is the result of stepping `mt` from some
still-receiving state carrying the initial failure value. -/
theorem processMessages_reaches_terminal (pre post : List RTMessage) (mt : RTMessage)
    (s : AssemblyState) (hpre : ∀ m ∈ pre, isTerminal m = false) (hs : s.done = false)
    (hmt : isTerminal mt = true) :
    (processMessages (pre ++ mt :: post) s).2.2 = post ∧
    ∃ s' : AssemblyState, s'.failure = s.failure ∧
      (processMessages (pre ++ mt :: post) s).1 = (stepMessage mt s').1 := by
  induction pre generalizing s with
  | nil =>
      rw [List.nil_append, processMessages_not_done_cons _ _ _ hs,
        processMessages_done _ _ (stepMessage_terminal_done mt s hmt)]
      exact ⟨rfl, s, rfl, rfl⟩
  | cons m pre ih =>
      have hm := hpre m (List.mem_cons_self m pre)
      have hpre' : ∀ x ∈ pre, isTerminal x = false :=
        fun x hx => hpre x (List.mem_cons_of_mem _ hx)
      rw [List.cons_append, processMessages_not_done_cons _ _ _ hs]
      have hstep := stepMessage_nonterminal m s hm
      obtain ⟨h1, s', hf, h2⟩ := ih (stepMessage m s).1 hpre' (hstep.1.trans hs)
      exact ⟨h1, s', hf.trans hstep.2, h2⟩

/-- C2: when the first terminal message of the incoming sequence is an
`Error`, the loop stops at that message, the outcome is a protocol error
carrying the payload, and no message after the terminal one is received;
likewise nothing after a terminal `ResponseDone` is received. -/
theorem c2_error_short_circuit (pre post : List RTMessage) (payload : String)
    (hpre : ∀ m ∈ pre, isTerminal m = false) :
    (process_llm_response (pre ++ RTMessage.error payload :: post)).outcome =
        Outcome.protocolError payload ∧
    (process_llm_response (pre ++ RTMessage.error payload :: post)).remaining = post ∧
    (process_llm_response (pre ++ RTMessage.responseDone :: post)).remaining = post := by
  obtain ⟨h1, s', hf, h2⟩ := processMessages_reaches_terminal pre post
    (RTMessage.error payload) initialState hpre rfl rfl
  obtain ⟨g1, t', gf, g2⟩ := processMessages_reaches_terminal pre post
    RTMessage.responseDone initialState hpre rfl rfl
  refine ⟨?_, h1, g1⟩
  show outcomeOf (processMessages (pre ++ RTMessage.error payload :: post) initialState).1 = _
  rw [h2]
  simp [stepMessage, outcomeOf]

/-- Witness for C2 on the spec's example `[TranscriptDelta "x",
Error "boom"]`. -/
theorem c2_witness :
    (∀ m ∈ preC2, isTerminal m = false) ∧
    ((process_llm_response (preC2 ++ RTMessage.error "boom" :: [])).outcome =
        Outcome.protocolError "boom" ∧
     (process_llm_response (preC2 ++ RTMessage.error "boom" :: [])).remaining = [] ∧
     (process_llm_response (preC2 ++ RTMessage.responseDone :: [])).remaining = []) :=
  ⟨by decide, c2_error_short_circuit preC2 [] "boom" (by decide)⟩

/-- C7: while still receiving, a message with an unrecognized tag leaves
the whole accumulator state (transcript, audio buffer, done flag, failure)
unchanged, performs no sink write, and the loop remains in the Receiving
state. -/
theorem c7_unknown_tag_ignored (s : AssemblyState) (tag : String)
    (hs : s.done = false) :
    stepMessage (RTMessage.other tag) s = (s, []) ∧
    (stepMessage (RTMessage.other tag) s).1.done = false :=
  ⟨rfl, hs⟩

/-- Witness for C7 at the initial state and the tag "session.created". -/
theorem c7_witness :
    stepMessage (RTMessage.other "session.created") initialState = (initialState, []) ∧
    (stepMessage (RTMessage.other "session.created") initialState).1.done = false :=
  c7_unknown_tag_ignored initialState "session.created" rfl

theorem count_map_write_stop (ws : List (List Byte)) :
    (ws.map SinkEvent.write).count SinkEvent.stop = 0 := by
  rw [List.count_eq_zero]
  simp

theorem count_map_write_close (ws : List (List Byte)) :
    (ws.map SinkEvent.write).count SinkEvent.close = 0 := by
  rw [List.count_eq_zero]
  simp

/-- C8: for every incoming message sequence (normal completion, protocol
error, or transport failure alike), the sink trace starts with the
acquisition, all writes happen in between, and the release pair
(stop, close) occurs exactly once, at the end. -/
theorem c8_sink_scoped_release (msgs : List RTMessage) :
    ∃ ws : List (List Byte),
      (process_llm_response msgs).sinkTrace =
        SinkEvent.start :: (ws.map SinkEvent.write ++ [SinkEvent.stop, SinkEvent.close]) ∧
      (process_llm_response msgs).sinkTrace.count SinkEvent.stop = 1 ∧
      (process_llm_response msgs).sinkTrace.count SinkEvent.close = 1 := by
  refine ⟨(processMessages msgs initialState).2.1, rfl, ?_, ?_⟩ <;>
    · show (SinkEvent.start ::
        ((processMessages msgs initialState).2.1.map SinkEvent.write ++
          [SinkEvent.stop, SinkEvent.close])).count _ = 1
      simp [List.count_cons, List.count_append, count_map_write_stop,
        count_map_write_close]

theorem mem_of_envContains {env : Env} {k : String} (h : envContains env k = true) :
    k ∈ envKeys env := by
  rw [envContains, List.contains_eq_any_beq, List.any_eq_true] at h
  obtain ⟨x, hx, hbeq⟩ := h
  exact eq_of_beq hbeq ▸ hx

theorem envGet_some_of_mem {env : Env} {k : String} (h : k ∈ envKeys env) :
    ∃ v, envGet env k = some v := by
  have hsome : (env.find? (fun p => p.1 == k)).isSome := by
    rw [List.find?_isSome]
    obtain ⟨p, hp, hpk⟩ := List.mem_map.mp h
    exact ⟨p, hp, by simp [hpk]⟩
  obtain ⟨p, hp⟩ := Option.isSome_iff_exists.mp hsome
  exact ⟨p.2, by rw [envGet, hp]; rfl⟩

theorem mkEntry_eq_some {env : Env} {var id : String} {m : ModelInfo}
    (h : mkEntry env var = some (id, m)) :
    m.suffix = suffixOfVar var ∧ id = lowerStr m.suffix ∧
    requiredVarsExist env m.suffix = true ∧
    m.name = (envGet env ("MODEL_" ++ m.suffix)).getD ((envGet env var).getD "") := by
  rw [mkEntry] at h
  split at h
  next hreq =>
    rw [Option.some.injEq, Prod.mk.injEq] at h
    obtain ⟨hid, hm⟩ := h
    subst hm
    exact ⟨rfl, hid.symm, hreq, rfl⟩
  next => exact absurd h (by simp)

theorem mem_dictInsert {models : List (String × ModelInfo)} {id : String}
    {m : ModelInfo} {x : String × ModelInfo} (h : x ∈ dictInsert models id m) :
    x ∈ models ∨ x = (id, m) := by
  rw [dictInsert] at h
  split at h
  · obtain ⟨p, hp, hfx⟩ := List.mem_map.mp h
    by_cases hbeq : (p.1 == id) = true
    · right; rw [if_pos hbeq] at hfx; exact hfx.symm
    · left; rw [if_neg hbeq] at hfx; exact hfx ▸ hp
  · rcases List.mem_append.mp h with h' | h'
    · exact Or.inl h'
    · exact Or.inr (by simpa using h')

theorem keys_dictInsert_replace {models : List (String × ModelInfo)} {id : String}
    (m : ModelInfo) (h : models.any (fun p => p.1 == id) = true) :
    (dictInsert models id m).map Prod.fst = models.map Prod.fst := by
  rw [dictInsert, if_pos h, List.map_map]
  refine List.map_congr_left ?_
  intro p hp
  by_cases hbeq : (p.1 == id) = true
  · simp only [Function.comp_apply, if_pos hbeq]
    exact (eq_of_beq hbeq).symm
  · simp only [Function.comp_apply, if_neg hbeq]

theorem keys_dictInsert_append {models : List (String × ModelInfo)} {id : String}
    (m : ModelInfo) (h : models.any (fun p => p.1 == id) = false) :
    (dictInsert models id m).map Prod.fst = models.map Prod.fst ++ [id] := by
  rw [dictInsert, if_neg (by simp [h]), List.map_append]
  rfl

theorem key_mem_dictInsert (models : List (String × ModelInfo)) (id : String)
    (m : ModelInfo) : id ∈ (dictInsert models id m).map Prod.fst := by
  by_cases hc : models.any (fun p => p.1 == id) = true
  · rw [keys_dictInsert_replace m hc]
    rw [List.any_eq_true] at hc
    obtain ⟨p, hp, hbeq⟩ := hc
    exact eq_of_beq hbeq ▸ List.mem_map_of_mem Prod.fst hp
  · rw [keys_dictInsert_append m ((Bool.not_eq_true _).mp hc)]
    simp

theorem key_mem_dictInsert_mono {models : List (String × ModelInfo)} {k : String}
    (h : k ∈ models.map Prod.fst) (id : String) (m : ModelInfo) :
    k ∈ (dictInsert models id m).map Prod.fst := by
  by_cases hc : models.any (fun p => p.1 == id) = true
  · rwa [keys_dictInsert_replace m hc]
  · rw [keys_dictInsert_append m ((Bool.not_eq_true _).mp hc)]
    exact List.mem_append_left _ h

theorem key_mem_foldl_mono (env : Env) (vars : List String)
    {init : List (String × ModelInfo)} {k : String} (h : k ∈ init.map Prod.fst) :
    k ∈ (vars.foldl (discoverStep env) init).map Prod.fst := by
  induction vars generalizing init with
  | nil => exact h
  | cons v vs ih =>
      rw [List.foldl_cons]
      apply ih
      rcases hE : mkEntry env v with _ | ⟨id, m⟩ <;> simp only [discoverStep, hE]
      · exact h
      · exact key_mem_dictInsert_mono h id m

theorem key_mem_foldl (env : Env) (vars : List String)
    (init : List (String × ModelInfo)) {var id : String} {m : ModelInfo}
    (hv : var ∈ vars) (hmk : mkEntry env var = some (id, m)) :
    id ∈ (vars.foldl (discoverStep env) init).map Prod.fst := by
  induction vars generalizing init with
  | nil => cases hv
  | cons v vs ih =>
      rw [List.foldl_cons]
      rcases List.mem_cons.mp hv with rfl | hv'
      · apply key_mem_foldl_mono
        simp only [discoverStep, hmk]
        exact key_mem_dictInsert init id m
      · exact ih _ hv'

theorem mem_foldl_discover (env : Env) (vars : List String)
    (init : List (String × ModelInfo)) {x : String × ModelInfo}
    (h : x ∈ vars.foldl (discoverStep env) init) :
    x ∈ init ∨ ∃ var ∈ vars, mkEntry env var = some x := by
  induction vars generalizing init with
  | nil => exact Or.inl h
  | cons v vs ih =>
      rw [List.foldl_cons] at h
      rcases ih _ h with h' | ⟨var, hvar, hmk⟩
      · rcases hE : mkEntry env v with _ | ⟨id, m⟩
        · rw [discoverStep, hE] at h'
          exact Or.inl h'
        · rw [discoverStep, hE] at h'
          rcases mem_dictInsert h' with h'' | rfl
          · exact Or.inl h''
          · exact Or.inr ⟨v, List.mem_cons_self v vs, hE⟩
      · exact Or.inr ⟨var, List.mem_cons_of_mem _ hvar, hmk⟩

theorem mem_discover {env : Env} {id : String} {m : ModelInfo}
    (h : (id, m) ∈ _discover_models env) :
    ∃ var ∈ deploymentVars env, mkEntry env var = some (id, m) := by
  rcases mem_foldl_discover env (deploymentVars env) [] h with h' | hout
  · cases h'
  · exact hout

theorem nodup_keys_dictInsert {models : List (String × ModelInfo)} {id : String}
    (m : ModelInfo) (h : (models.map Prod.fst).Nodup) :
    ((dictInsert models id m).map Prod.fst).Nodup := by
  by_cases hc : models.any (fun p => p.1 == id) = true
  · rwa [keys_dictInsert_replace m hc]
  · rw [keys_dictInsert_append m ((Bool.not_eq_true _).mp hc)]
    rw [List.nodup_append]
    refine ⟨h, List.nodup_singleton id, ?_⟩
    intro a ha hb
    rw [List.mem_singleton] at hb
    subst hb
    obtain ⟨p, hp, hpa⟩ := List.mem_map.mp ha
    exact hc (List.any_eq_true.mpr ⟨p, hp, by simp [hpa]⟩)

theorem discover_keys_nodup (env : Env) :
    ((_discover_models env).map Prod.fst).Nodup := by
  have hgen : ∀ (vars : List String) (init : List (String × ModelInfo)),
      (init.map Prod.fst).Nodup →
      ((vars.foldl (discoverStep env) init).map Prod.fst).Nodup := by
    intro vars
    induction vars with
    | nil => exact fun init h => h
    | cons v vs ih =>
        intro init h
        rw [List.foldl_cons]
        apply ih
        rcases hE : mkEntry env v with _ | ⟨id, m⟩ <;> simp only [discoverStep, hE]
        · exact h
        · exact nodup_keys_dictInsert m h
  exact hgen _ [] (by simp)

theorem find?_eq_of_nodup {l : List (String × ModelInfo)} {id : String}
    {m : ModelInfo} (hmem : (id, m) ∈ l) (hnd : (l.map Prod.fst).Nodup) :
    l.find? (fun p => p.1 == id) = some (id, m) := by
  induction l with
  | nil => cases hmem
  | cons p l ih =>
      rw [List.map_cons, List.nodup_cons] at hnd
      rcases List.mem_cons.mp hmem with rfl | hmem'
      · rw [List.find?_cons_of_pos _ (by simp)]
      · have hid : id ∈ l.map Prod.fst := by
          have h := List.mem_map_of_mem Prod.fst hmem'
          exact h
        have hfalse : (p.1 == id) = false := by
          rw [beq_eq_false_iff_ne]
          intro hpe
          exact hnd.1 (hpe ▸ hid)
        simp only [List.find?, hfalse]
        exact ih hmem' hnd.2

/-- C10 (registry invariant): every discovered registry entry stores a
suffix that came, case-preserved, from an actual `DEPLOYMENT_NAME_*` key
of the snapshot (only the pattern occurrences are stripped), its model id
is the lowercased stored suffix, and every one of the five key names that
`get_env_variable_keys` derives for it was present in the environment at
discovery time. -/
theorem c10_registry_invariant (env : Env) (id : String) (m : ModelInfo)
    (h : (id, m) ∈ _discover_models env) :
    id = lowerStr m.suffix ∧
    (∃ var ∈ envKeys env, startsWithDep var = true ∧ suffixOfVar var = m.suffix) ∧
    get_env_variable_keys (_discover_models env) id =
      some (envVariableKeyList m.suffix) ∧
    ∀ k ∈ envVariableKeyList m.suffix, envContains env k = true := by
  obtain ⟨var, hvar, hmk⟩ := mem_discover h
  obtain ⟨hsuf, hid, hreq, hname⟩ := mkEntry_eq_some hmk
  obtain ⟨hvk, hvs⟩ := List.mem_filter.mp hvar
  refine ⟨hid, ⟨var, hvk, hvs, hsuf.symm⟩, ?_, ?_⟩
  · rw [get_env_variable_keys, find?_eq_of_nodup h (discover_keys_nodup env)]
    rfl
  · intro k hk
    simp only [requiredVarsExist, List.all_cons, List.all_nil, Bool.and_true,
      Bool.and_eq_true] at hreq
    simp only [envVariableKeyList, List.mem_cons, List.not_mem_nil, or_false] at hk
    rcases hk with rfl | rfl | rfl | rfl | rfl
    · exact hreq.1
    · exact hreq.2.1
    · exact hreq.2.2.1
    · exact hreq.2.2.2.1
    · exact hreq.2.2.2.2

/-- Witness for C10 at the `foo` entry discovered from `envC9`. -/
theorem c10_witness :
    (("foo", (⟨"depB", "foo"⟩ : ModelInfo)) ∈ _discover_models envC9) ∧
    (("foo" : String) = lowerStr "foo" ∧
     (∃ var ∈ envKeys envC9, startsWithDep var = true ∧ suffixOfVar var = "foo") ∧
     get_env_variable_keys (_discover_models envC9) "foo" =
       some (envVariableKeyList "foo") ∧
     ∀ k ∈ envVariableKeyList "foo", envContains envC9 k = true) :=
  ⟨by decide, c10_registry_invariant envC9 "foo" ⟨"depB", "foo"⟩ (by decide)⟩

/-- C3 (amended): for every suffix X that the code's replace-all leaves
intact (in particular any X not containing "DEPLOYMENT_NAME_"), if all
five required keys for X are present then the lowercased X is a model id
of the discovery result; and if `DEPLOYMENT_NAME_X` is present but one of
the other four keys is missing, no descriptor with suffix X appears in
the result (discovery is a total function, so no error is raised). -/
theorem c3_discovery_completeness (env : Env) (X : String)
    (hclean : suffixOfVar ("DEPLOYMENT_NAME_" ++ X) = X) :
    (requiredVarsExist env X = true →
      lowerStr X ∈ (_discover_models env).map Prod.fst) ∧
    (envContains env ("DEPLOYMENT_NAME_" ++ X) = true →
      requiredVarsExist env X = false →
      ∀ p ∈ _discover_models env, p.2.suffix ≠ X) := by
  constructor
  · intro hreq
    have hdep : envContains env ("DEPLOYMENT_NAME_" ++ X) = true := by
      simp only [requiredVarsExist, List.all_cons, List.all_nil, Bool.and_true,
        Bool.and_eq_true] at hreq
      exact hreq.2.2.2.1
    have hmem : ("DEPLOYMENT_NAME_" ++ X) ∈ envKeys env := mem_of_envContains hdep
    have hsw : startsWithDep ("DEPLOYMENT_NAME_" ++ X) = true := by
      rw [startsWithDep, String.data_append, List.isPrefixOf_iff_prefix]
      exact ⟨X.data, rfl⟩
    have hvar : ("DEPLOYMENT_NAME_" ++ X) ∈ deploymentVars env :=
      List.mem_filter.mpr ⟨hmem, hsw⟩
    have hmk : mkEntry env ("DEPLOYMENT_NAME_" ++ X) =
        some (lowerStr X,
          ⟨(envGet env ("MODEL_" ++ X)).getD
             ((envGet env ("DEPLOYMENT_NAME_" ++ X)).getD ""), X⟩) := by
      rw [mkEntry, hclean, if_pos hreq]
    exact key_mem_foldl env _ [] hvar hmk
  · intro _ hreqf p hp hsufX
    obtain ⟨var, hvar, hmk⟩ :=
      mem_discover (show (p.1, p.2) ∈ _discover_models env from hp)
    obtain ⟨hsuf, hid, hreq, hname⟩ := mkEntry_eq_some hmk
    rw [hsufX, hreqf] at hreq
    cases hreq

/-- C3 counterexample to the claim as universally stated: for the suffix
`A_DEPLOYMENT_NAME_B`, all five required keys are present in `envC3`, yet
its lowercasing is NOT among the discovered model ids, because
`str.replace` strips every occurrence of the pattern and the code then
checks keys for the mangled suffix `A_B`. -/
theorem c3_counterexample :
    requiredVarsExist envC3 "A_DEPLOYMENT_NAME_B" = true ∧
    lowerStr "A_DEPLOYMENT_NAME_B" ∉ (_discover_models envC3).map Prod.fst := by
  decide

/-- Witness for the amended C3 at suffix `FOO` in `envC9`. -/
theorem c3_witness :
    suffixOfVar ("DEPLOYMENT_NAME_" ++ "FOO") = "FOO" ∧
    ((requiredVarsExist envC9 "FOO" = true →
        lowerStr "FOO" ∈ (_discover_models envC9).map Prod.fst) ∧
     (envContains envC9 ("DEPLOYMENT_NAME_" ++ "FOO") = true →
        requiredVarsExist envC9 "FOO" = false →
        ∀ p ∈ _discover_models envC9, p.2.suffix ≠ "FOO")) :=
  ⟨by decide, c3_discovery_completeness envC9 "FOO" (by decide)⟩

/-- C6 (amended): for every discovered model, unconditionally, the
optional `MODEL_<suffix>` key's value is the display name whenever that
key is present, and otherwise the display name is the value of the
deployment variable the entry was created from (an actual environment key
matching the pattern whose computed suffix is the stored suffix); when
additionally `DEPLOYMENT_NAME_<suffix>` is the only environment key whose
computed suffix is the stored suffix, that default is the value of
`DEPLOYMENT_NAME_<suffix>` itself. -/
theorem c6_display_name_override (env : Env) (id : String) (m : ModelInfo)
    (hmem : (id, m) ∈ _discover_models env) :
    (∀ v, envGet env ("MODEL_" ++ m.suffix) = some v → m.name = v) ∧
    (envGet env ("MODEL_" ++ m.suffix) = none →
      ∃ var ∈ envKeys env, startsWithDep var = true ∧ suffixOfVar var = m.suffix ∧
        envGet env var = some m.name) ∧
    ((∀ var ∈ envKeys env, startsWithDep var = true →
        suffixOfVar var = m.suffix → var = "DEPLOYMENT_NAME_" ++ m.suffix) →
      envGet env ("MODEL_" ++ m.suffix) = none →
      envGet env ("DEPLOYMENT_NAME_" ++ m.suffix) = some m.name) := by
  obtain ⟨var, hvar, hmk⟩ := mem_discover hmem
  obtain ⟨hsuf, hid, hreq, hname⟩ := mkEntry_eq_some hmk
  obtain ⟨hvk, hvs⟩ := List.mem_filter.mp hvar
  obtain ⟨w, hw⟩ := envGet_some_of_mem hvk
  refine ⟨?_, ?_, ?_⟩
  · intro v hv
    rw [hname, hv]
    rfl
  · intro hnone
    refine ⟨var, hvk, hvs, hsuf.symm, ?_⟩
    rw [hname, hnone, Option.getD_none, hw]
    rfl
  · intro huniq hnone
    have hvareq : var = "DEPLOYMENT_NAME_" ++ m.suffix := huniq var hvk hvs hsuf.symm
    rw [hname, hnone, Option.getD_none, ← hvareq, hw]
    rfl

/-- C6 counterexample to the claim as stated: in `envC6` the discovered
model for id `b` has suffix `B` and `MODEL_B` is absent, but its display
name is `dep2` (the value of the mangling sibling key
`DEPLOYMENT_NAME_DEPLOYMENT_NAME_B` it was created from), not the value
`dep1` of `DEPLOYMENT_NAME_B`. -/
theorem c6_counterexample :
    ("b", (⟨"dep2", "B"⟩ : ModelInfo)) ∈ _discover_models envC6 ∧
    envContains envC6 "MODEL_B" = false ∧
    envGet envC6 "DEPLOYMENT_NAME_B" = some "dep1" ∧
    ("dep2" : String) ≠ "dep1" := by
  decide

/-- Witness for the amended C6 at the `foo` entry of `envC9`. -/
theorem c6_witness :
    (("foo", (⟨"depB", "foo"⟩ : ModelInfo)) ∈ _discover_models envC9) ∧
    ((∀ v, envGet envC9 ("MODEL_" ++ "foo") = some v → ("depB" : String) = v) ∧
     (envGet envC9 ("MODEL_" ++ "foo") = none →
       ∃ var ∈ envKeys envC9, startsWithDep var = true ∧ suffixOfVar var = "foo" ∧
         envGet envC9 var = some "depB") ∧
     ((∀ var ∈ envKeys envC9, startsWithDep var = true →
         suffixOfVar var = "foo" → var = "DEPLOYMENT_NAME_" ++ "foo") →
       envGet envC9 ("MODEL_" ++ "foo") = none →
       envGet envC9 ("DEPLOYMENT_NAME_" ++ "foo") = some "depB")) :=
  ⟨by decide, c6_display_name_override envC9 "foo" ⟨"depB", "foo"⟩ (by decide)⟩

/-- C9: model ids are unique in every discovery result (at most one entry
per lowercased suffix), and in the concrete snapshot `envC9`, where the
suffix groups `FOO` and `foo` are both complete and lower to the same id,
the final registry holds exactly one entry for `foo`, carrying the
descriptor of the group scanned later (`depB`, suffix `foo`), the earlier
`FOO` descriptor having been silently overwritten. -/
theorem c9_lowercase_collision :
    (∀ env : Env, ((_discover_models env).map Prod.fst).Nodup) ∧
    requiredVarsExist envC9 "FOO" = true ∧
    requiredVarsExist envC9 "foo" = true ∧
    lowerStr "FOO" = lowerStr "foo" ∧
    _discover_models envC9 = [("foo", ⟨"depB", "foo"⟩)] :=
  ⟨discover_keys_nodup, by decide, by decide, by decide, by decide⟩

end OaiRealtime
